import Mathlib

/-!
Verification of the CsvDB merge store (`powerapi/database/csvdb.py`).

The file shallowly embeds the data model and the two sub-protocols of the
store: the read path (connect + timestamp-synchronized merge iteration,
`CsvDB.connect` / `CsvDB.__next__`) and the write path (`CsvDB.save`,
per-group header reconciliation and append).  Rows are modelled as
association lists of strings, timestamps as natural numbers (the source
converts the integer `timestamp` field through an order-preserving
`timestamp_to_datetime`, so comparisons are faithfully mirrored on Nat),
and the filesystem as explicit maps threaded through the functions.
-/

namespace CsvDb

/-- A CSV row as produced by a header-aware dict reader: an association list
from column name to cell value. -/
abbrev Row := List (String × String)

/-- The common columns shared by all groups.  Source: `COMMON_ROW` in
`csvdb.py` line 40. -/
def COMMON_ROW : List String := ["timestamp", "sensor", "target", "socket", "cpu"]

/-- Modelled from the spec: `KEYS_COMMON` is imported from
`powerapi.report_model.report_model`, which is not part of the sources at
hand; spec section 6 fixes the required common field names as `timestamp`,
`sensor`, `target`, `socket`, `cpu` (the same list as `COMMON_ROW`). -/
def KEYS_COMMON : List String := ["timestamp", "sensor", "target", "socket", "cpu"]

/-- Accumulate decimal digits into a natural number; any non-digit
character yields no parse. -/
def parseDigits : List Char → Nat → Option Nat
  | [], acc => some acc
  | c :: cs, acc =>
    if 48 ≤ c.toNat ∧ c.toNat ≤ 57 then parseDigits cs (acc * 10 + (c.toNat - 48))
    else none

/-- Parse of a decimal numeral string (the `int(...)` conversion of the
source on the well-formed inputs the claims quantify over). -/
def parseNat (s : String) : Option Nat :=
  match s.data with
  | [] => none
  | cs => parseDigits cs 0

/-- Timestamp of a row: the integer parse of its `timestamp` cell.  The
source does `int(row['timestamp'])`; all claims presuppose rows whose
timestamp cell is a numeral, and the fallback value 0 is never reached in
the theorems below. -/
def rowTs (r : Row) : Nat := (parseNat ((r.lookup "timestamp").getD "")).getD 0

/-- Rows whose `timestamp` cell is a parseable decimal numeral, the inputs
on which `int(row['timestamp'])` in the source returns instead of
raising. -/
def wfTimestamps (l : List Row) : Prop :=
  ∀ r ∈ l, (parseNat ((r.lookup "timestamp").getD "")).isSome = true

instance (l : List Row) : Decidable (wfTimestamps l) :=
  inferInstanceAs (Decidable (∀ r ∈ l, _))

/-- Basename of a path, as in `path_file.split('/')[-1]`. -/
def basename (p : String) : String := (p.splitOn "/").getLastD ""

/-- A dynamic nested value: either a scalar (cell) or a nested string-keyed
mapping.  This is the shape of the decoded records that
`report_model.from_csvdb` returns and that `utils.dict_merge` combines. -/
inductive Value where
  | s : String → Value
  | o : List (String × Value) → Value
deriving Repr

/-- A decoded record: a string-keyed mapping of nested values (a Python
dict in the source). -/
abbrev Obj := List (String × Value)

mutual

/-- Modelled from the spec: `utils.dict_merge` is imported from
`powerapi.utils`, which is not part of the sources at hand; spec sections
4.3 and 9 describe it as a deep union of nested mappings in which nested
mappings are recursively unioned and non-mapping values from the most
recent write win.  `mergeValue old new` combines the two bindings of one
key. -/
def mergeValue : Value → Value → Value
  | .o a, .o b => .o (dict_merge a b)
  | _, v => v

/-- Deep union of two decoded records (see `mergeValue`): each binding of
the second argument is merged into the first in order; an existing key
keeps its position, a new key is appended. -/
def dict_merge : Obj → Obj → Obj
  | dct, [] => dct
  | dct, (k, v) :: rest => dict_merge (insertMerge dct k v) rest

/-- Merge one binding into a record: recursively merge with an existing
binding of the same key, else append the binding at the end. -/
def insertMerge : Obj → String → Value → Obj
  | [], k, v => [(k, v)]
  | (k1, v1) :: tl, k, v =>
      if k1 = k then (k1, mergeValue v1 v) :: tl else (k1, v1) :: insertMerge tl k v

end

/-- Insert a string into an already sorted list of strings. -/
def insertSorted (x : String) : List String → List String
  | [] => [x]
  | y :: ys => if x ≤ y then x :: y :: ys else y :: insertSorted x ys

/-- Sort a list of strings ascending (the `sorted(...)` builtin of the
source; on distinct keys any comparison sort computes the same list). -/
def sortStrings : List String → List String
  | [] => []
  | x :: xs => insertSorted x (sortStrings xs)

/-- Computed header of one group field map.  Source, `CsvDB.save` line 254:
`KEYS_COMMON + sorted(list(set(keys) - set(KEYS_COMMON)))`. -/
def computeHeader (values : List (String × String)) : List String :=
  KEYS_COMMON ++
    sortStrings (((values.map Prod.fst).filter (fun k => !(KEYS_COMMON.contains k))).dedup)

/-- Per-file reading state, one entry of `self.tmp_read`: the current
lookahead row (`next_line`, `none` once the reader is exhausted) and the
rows the reader has not yet produced. -/
structure FileEntry where
  path : String
  next_line : Option Row
  rest : List Row
deriving Repr, DecidableEq

/-- The file entry obtained by priming a lookahead over the full row list
`l`: lookahead is the first row, the reader holds the tail. -/
def mkEntry (p : String) (l : List Row) : FileEntry := ⟨p, l.head?, l.tail⟩

/-- Store state (`CsvDB.__init__`): registered file list, per-file read
state, the current watermark `saved_timestamp`, and the base directory
`current_path`. -/
structure CsvDB where
  filenames : List String
  tmp_read : List FileEntry
  saved_timestamp : Nat
  current_path : String
deriving Repr, DecidableEq

/-- Result of opening one registered path for reading. -/
inductive OpenResult where
  | notFound
  | permissionDenied
  | ok (rows : List Row)
deriving Repr, DecidableEq

/-- Errors that can escape `CsvDB.connect`.  `csvBadFilePath` and
`csvBadCommonKeys` are the error classes of the module; `permissionError`
is an uncaught Python `PermissionError` (the source catches only
`FileNotFoundError`); `pyTypeError` is the uncaught `TypeError` raised by
`key not in None` when a file has no rows. -/
inductive ConnErr where
  | csvBadFilePath
  | csvBadCommonKeys
  | permissionError
  | pyTypeError
deriving Repr, DecidableEq

/-- Open and prime a single registered path (`CsvDB.connect`, lines
216-228): open the file (`FileNotFoundError` is wrapped into
`CsvBadFilePathError`, a `PermissionError` propagates as itself), read the
lookahead row, then run `for key in KEYS_COMMON: if key not in
next_line: raise CsvBadCommonKeysError`.  When the file has no rows the
lookahead is `None` and the membership test `key not in None` raises an
uncaught `TypeError`. -/
def connectFile (fs : String → OpenResult) (p : String) : Except ConnErr FileEntry :=
  match fs p with
  | .notFound => .error .csvBadFilePath
  | .permissionDenied => .error .permissionError
  | .ok rows =>
    match rows.head? with
    | none => .error .pyTypeError
    | some row =>
      if KEYS_COMMON.all (fun k => (row.lookup k).isSome) then .ok (mkEntry p rows)
      else .error .csvBadCommonKeys

/-- Open and prime every registered path in order; the first failure aborts
the whole loop (exception propagation). -/
def connectFiles (fs : String → OpenResult) : List String → Except ConnErr (List FileEntry)
  | [] => .ok []
  | p :: ps =>
    match connectFile fs p with
    | .error e => .error e
    | .ok e =>
      match connectFiles fs ps with
      | .error e2 => .error e2
      | .ok es => .ok (e :: es)

/-- The `CsvDB.connect` method (lines 203-233): reopen and prime every
registered file, then, if any file is registered, set the watermark to the
timestamp of the primary lookahead row (that lookahead is necessarily
present when the loop succeeded). -/
def connect (fs : String → OpenResult) (st : CsvDB) : Except ConnErr CsvDB :=
  match connectFiles fs st.filenames with
  | .error e => .error e
  | .ok files =>
    match files.head? with
    | none => .ok { st with tmp_read := files }
    | some e0 =>
      .ok { st with
              tmp_read := files,
              saved_timestamp :=
                match e0.next_line with
                | some r => rowTs r
                | none => st.saved_timestamp }

/-- The inner while loop of `CsvDB.__next__` (lines 170-197) on one file
whose lookahead plus remaining reader rows are `l`: rows strictly above the
watermark stop the loop (and, on the primary file, pre-set the next
watermark), rows at the watermark are decoded and deep-merged into the
accumulator and consumed, rows below the watermark are consumed without
effect. -/
def consumeRows (dec : String → Row → Obj) (b : String) (current : Nat) (isPrim : Bool) :
    List Row → Obj → Nat → List Row × Obj × Nat
  | [], json, saved => ([], json, saved)
  | row :: rest, json, saved =>
    if current < rowTs row then
      (row :: rest, json, if isPrim then rowTs row else saved)
    else
      consumeRows dec b current isPrim rest
        (if rowTs row = current then dict_merge json (dec b row) else json) saved

/-- One file step of `CsvDB.__next__`: a `None` lookahead breaks at once,
otherwise the while loop `consumeRows` runs over lookahead and reader. -/
def processEntry (dec : String → Row → Obj) (current : Nat) (isPrim : Bool)
    (e : FileEntry) (json : Obj) (saved : Nat) : FileEntry × Obj × Nat :=
  match e.next_line with
  | none => (e, json, saved)
  | some row =>
    let res := consumeRows dec (basename e.path) current isPrim (row :: e.rest) json saved
    (⟨e.path, res.1.head?, res.1.tail⟩, res.2.1, res.2.2)

/-- The `for path_file in self.filenames` loop of `CsvDB.__next__`: the
first listed file is the primary (`path_file == self.filenames[0]`), the
accumulator and the pre-set next watermark are threaded through. -/
def goFiles (dec : String → Row → Obj) (current : Nat) :
    Bool → List FileEntry → Obj → Nat → List FileEntry × Obj × Nat
  | _, [], json, saved => ([], json, saved)
  | isPrim, e :: es, json, saved =>
    let r1 := processEntry dec current isPrim e json saved
    let r2 := goFiles dec current false es r1.2.1 r1.2.2
    (r1.1 :: r2.1, r2.2.1, r2.2.2)

/-- The `CsvDB.__next__` method (lines 156-201): one pull step.  It returns
the merged record paired with the watermark it was produced at, plus the
successor state, or `none` for `StopIteration` (empty accumulator). -/
def nextRecord (dec : String → Row → Obj) (st : CsvDB) : Option ((Nat × Obj) × CsvDB) :=
  let current := st.saved_timestamp
  let res := goFiles dec current true st.tmp_read [] st.saved_timestamp
  if res.2.1.isEmpty then none
  else some ((current, res.2.1), { st with tmp_read := res.1, saved_timestamp := res.2.2 })

/-- Pull at most `n` records from the store. -/
def iterN (dec : String → Row → Obj) : Nat → CsvDB → List (Nat × Obj)
  | 0, _ => []
  | n + 1, st =>
    match nextRecord dec st with
    | none => []
    | some (r, st2) => r :: iterN dec n st2

/-- Number of unread rows held by a file entry. -/
def entrySize (e : FileEntry) : Nat :=
  (match e.next_line with | none => 0 | some _ => 1) + e.rest.length

/-- Number of unread rows held by the whole store. -/
def totalRows (st : CsvDB) : Nat := (st.tmp_read.map entrySize).sum

/-- Iterate the store to exhaustion.  Every yielding step consumes at least
one row, so `totalRows st + 1` pulls always reach `StopIteration`. -/
def run (dec : String → Row → Obj) (st : CsvDB) : List (Nat × Obj) :=
  iterN dec (totalRows st + 1) st

/-! Helper predicates and lemmas for the read path. -/

/-- Rows sorted ascending by timestamp. -/
def TsSorted (l : List Row) : Prop := l.Pairwise (fun a b => rowTs a ≤ rowTs b)

instance (l : List Row) : Decidable (TsSorted l) :=
  inferInstanceAs (Decidable (l.Pairwise _))

/-- Rows at or below the watermark `T` (the consumption condition of the
inner loop). -/
def belowEq (T : Nat) : Row → Bool := fun r => decide (rowTs r ≤ T)

/-- Rows at exactly the watermark `T` (the merge condition). -/
def atTs (T : Nat) : Row → Bool := fun r => decide (rowTs r = T)

/-- Deep union of the decodes of a list of rows into an accumulator. -/
def mergeRows (dec : String → Row → Obj) (b : String) (rows : List Row) (j : Obj) : Obj :=
  rows.foldl (fun a r => dict_merge a (dec b r)) j

/-- The file entries priming a lookahead over each registered row list. -/
def entriesOf (fls : List (String × List Row)) : List FileEntry :=
  fls.map (fun pl => mkEntry pl.1 pl.2)

/-- Every registered row list with its consumed prefix (rows at or below
the watermark) removed. -/
def dropFls (T : Nat) (fls : List (String × List Row)) : List (String × List Row) :=
  fls.map (fun pl => (pl.1, pl.2.dropWhile (belowEq T)))

/-- Deep union, over all registered files in order, of the decodes of the
rows whose timestamp equals `T`. -/
def mergeFls (dec : String → Row → Obj) (T : Nat) (fls : List (String × List Row))
    (j : Obj) : Obj :=
  fls.foldl (fun a pl => mergeRows dec (basename pl.1) (pl.2.filter (atTs T)) a) j

/-- Invariant carried by the merge iteration: the watermark is the
timestamp of the primary lookahead row, and once the primary file is
exhausted every remaining lookahead is strictly above the watermark. -/
def GoodHd (fls : List (String × List Row)) (T : Nat) : Prop :=
  match fls with
  | [] => True
  | (_, l0) :: _ =>
    (∀ r ∈ l0.head?, rowTs r = T) ∧
    (l0 = [] → ∀ pl ∈ fls, ∀ r ∈ pl.2.head?, T < rowTs r)

/-- The output the spec predicts for iterating registered row lists `fls`:
one record per distinct timestamp of the primary list, in ascending order,
each paired with the deep union over all files of the decoded rows at that
timestamp. -/
def expectedFrom (dec : String → Row → Obj) (fls : List (String × List Row)) :
    List (Nat × Obj) :=
  match fls with
  | [] => []
  | (_, l0) :: _ => ((l0.map rowTs).dedup).map (fun T => (T, mergeFls dec T fls []))

/-- Number of distinct timestamps of the primary list. -/
def numDistinct (fls : List (String × List Row)) : Nat :=
  match fls with
  | [] => 0
  | (_, l0) :: _ => (l0.map rowTs).dedup.length

/-- On-disk state seen by the write path: a map from file path to the list
of CSV lines of the file, each line a list of cells.  An absent path is a
file that does not exist. -/
abbrev WriteFS := List (String × List (List String))

/-- Content of a file, if it exists. -/
def fsGet (fs : WriteFS) (p : String) : Option (List (List String)) := fs.lookup p

/-- Replace or create the file at path `p`. -/
def fsSet : WriteFS → String → List (List String) → WriteFS
  | [], p, c => [(p, c)]
  | (q, d) :: tl, p, c => if q = p then (q, c) :: tl else (q, d) :: fsSet tl p c

/-- The data row the dict writer emits for one group field map: the values
of the field map in header order, missing header columns filled with the
empty string (`csv.DictWriter` restval). -/
def rowOf (header : List String) (values : List (String × String)) : List String :=
  header.map (fun k => ((values.lookup k).getD ""))

/-- The one error `CsvDB.save` raises itself. -/
inductive SaveErr where
  | headerAreNotTheSame
deriving Repr, DecidableEq

/-- One iteration of the group loop of `CsvDB.save` (lines 250-274) for the
target file `path` and group field map `values`: compute the header; if the
file exists read its first line as the on-disk header and raise
`HeaderAreNotTheSameError` unless it equals the computed header (a file
with no lines has fieldnames `None`, which also differs); then append the
data row, preceded by the header line when the file did not exist (or its
first line was empty, the `header_exist` flag). -/
def saveGroup (path : String) (values : List (String × String)) (fs : WriteFS) :
    WriteFS × Option SaveErr :=
  let header := computeHeader values
  match fsGet fs path with
  | none =>
    (fsSet fs path [header, rowOf header values], none)
  | some content =>
    let fieldnames := content.head?
    let headerExist := match fieldnames with | some l => !l.isEmpty | none => false
    if fieldnames ≠ some header then (fs, some .headerAreNotTheSame)
    else
      (fsSet fs path
        (content ++ (if headerExist then [] else [header]) ++ [rowOf header values]), none)

/-- The group loop of `CsvDB.save`: groups are processed in order, an
exception aborts the loop leaving the writes of earlier groups in place. -/
def saveGroups (repPath : String) :
    List (String × List (String × String)) → WriteFS → WriteFS × Option SaveErr
  | [], fs => (fs, none)
  | (g, values) :: rest, fs =>
    match saveGroup (repPath ++ "/" ++ g ++ ".csv") values fs with
    | (fs2, some e) => (fs2, some e)
    | (fs2, none) => saveGroups repPath rest fs2

/-- The `CsvDB.save` method (lines 235-274): expand the report through the
codec (`to_csvdb`), build the entity directory path, and run the group
loop.  The store state is returned alongside the filesystem: the method
reads `current_path` but assigns no store field.  Directory creation
(`os.makedirs`) touches no file and is not modelled. -/
def save (enc : List (String × String) → List (String × List (String × String)))
    (st : CsvDB) (fs : WriteFS) (report : List (String × String)) :
    CsvDB × WriteFS × Option SaveErr :=
  let data := enc report
  let repPath :=
    st.current_path ++ (report.lookup "sensor").getD "" ++ "-" ++ (report.lookup "target").getD ""
  let res := saveGroups repPath data fs
  (st, res.1, res.2)


theorem insertMerge_ne_nil (d : Obj) (k : String) (v : Value) : insertMerge d k v ≠ [] := by
  cases d with
  | nil => simp [insertMerge]
  | cons hd tl =>
    obtain ⟨k1, v1⟩ := hd
    rw [insertMerge]
    split <;> simp

theorem dict_merge_eq_nil {a b : Obj} : dict_merge a b = [] ↔ a = [] ∧ b = [] := by
  induction b generalizing a with
  | nil => simp [dict_merge]
  | cons hd tl ih =>
    obtain ⟨k, v⟩ := hd
    rw [dict_merge]
    simp [ih, insertMerge_ne_nil]

theorem mergeRows_ne_nil_of_ne_nil {dec : String → Row → Obj} {b : String} {j : Obj}
    (rows : List Row) (hj : j ≠ []) : mergeRows dec b rows j ≠ [] := by
  induction rows generalizing j with
  | nil => exact hj
  | cons r rs ih =>
    rw [mergeRows, List.foldl_cons]
    exact ih (fun h => hj (dict_merge_eq_nil.mp h).1)

theorem mergeRows_ne_nil_of_mem {dec : String → Row → Obj} {b : String} {j : Obj}
    (hdec : ∀ b r, dec b r ≠ []) {rows : List Row} (hrows : rows ≠ []) :
    mergeRows dec b rows j ≠ [] := by
  cases rows with
  | nil => exact absurd rfl hrows
  | cons r rs =>
    rw [mergeRows, List.foldl_cons]
    exact mergeRows_ne_nil_of_ne_nil rs (fun h => hdec b r (dict_merge_eq_nil.mp h).2)

/-- Characterization of the inner while loop of the merge step on a sorted
row list: the consumed prefix is exactly the rows at or below the
watermark, the rows at the watermark are deep-merged in order, and the
pre-set next watermark is the timestamp of the first remaining row when
the loop ran on the primary file. -/
theorem consumeRows_spec (dec : String → Row → Obj) (b : String) (T : Nat) (isPrim : Bool) :
    ∀ (l : List Row) (json : Obj) (saved : Nat), TsSorted l →
    consumeRows dec b T isPrim l json saved =
      (l.dropWhile (belowEq T),
       mergeRows dec b (l.filter (atTs T)) json,
       match (l.dropWhile (belowEq T)).head? with
       | some r => if isPrim then rowTs r else saved
       | none => saved) := by
  intro l
  induction l with
  | nil => intro json saved _; simp [consumeRows, mergeRows]
  | cons row rest ih =>
    intro json saved hs
    have hrest : TsSorted rest := (List.pairwise_cons.mp hs).2
    have hhead : ∀ r ∈ rest, rowTs row ≤ rowTs r := (List.pairwise_cons.mp hs).1
    rw [consumeRows]
    by_cases h : T < rowTs row
    · have hb : ¬ (belowEq T row = true) := by simp [belowEq]; omega
      have hfil : (row :: rest).filter (atTs T) = [] := by
        rw [List.filter_eq_nil_iff]
        intro r hr
        rcases List.mem_cons.mp hr with hr | hr
        · subst hr; simp [atTs]; omega
        · have := hhead r hr; simp [atTs]; omega
      rw [if_pos h, List.dropWhile_cons_of_neg hb, hfil]
      simp [mergeRows]
    · have hb : belowEq T row = true := by simp [belowEq]; omega
      rw [if_neg h, List.dropWhile_cons_of_pos hb, ih _ _ hrest]
      by_cases he : rowTs row = T
      · rw [if_pos he]
        have : (row :: rest).filter (atTs T) = row :: rest.filter (atTs T) := by
          simp [List.filter_cons, atTs, he]
        rw [this, mergeRows, mergeRows, List.foldl_cons]
      · rw [if_neg he]
        have : (row :: rest).filter (atTs T) = rest.filter (atTs T) := by
          simp [List.filter_cons, atTs, he]
        rw [this]

/-- Characterization of one file step of the merge step, on an entry whose
lookahead and reader hold the sorted row list `l`. -/
theorem processEntry_spec (dec : String → Row → Obj) (T : Nat) (isPrim : Bool)
    (p : String) (l : List Row) (json : Obj) (saved : Nat) (hs : TsSorted l) :
    processEntry dec T isPrim (mkEntry p l) json saved =
      (mkEntry p (l.dropWhile (belowEq T)),
       mergeRows dec (basename p) (l.filter (atTs T)) json,
       match (l.dropWhile (belowEq T)).head? with
       | some r => if isPrim then rowTs r else saved
       | none => saved) := by
  cases l with
  | nil => simp [processEntry, mkEntry, mergeRows]
  | cons row rest =>
    show processEntry dec T isPrim ⟨p, some row, rest⟩ json saved = _
    rw [processEntry]
    simp only
    rw [consumeRows_spec dec (basename p) T isPrim (row :: rest) json saved hs]
    rfl


theorem mergeFls_ne_nil_of_ne_nil {dec : String → Row → Obj} {T : Nat} {j : Obj}
    (fls : List (String × List Row)) (hj : j ≠ []) : mergeFls dec T fls j ≠ [] := by
  induction fls generalizing j with
  | nil => exact hj
  | cons pl tl ih =>
    rw [mergeFls, List.foldl_cons]
    exact ih (mergeRows_ne_nil_of_ne_nil _ hj)

/-- The secondary-file pass of the merge step (the loop tail, where the
watermark is never pre-set). -/
theorem goFiles_false_spec (dec : String → Row → Obj) (T : Nat) :
    ∀ (fls : List (String × List Row)) (j : Obj) (s : Nat),
    (∀ pl ∈ fls, TsSorted pl.2) →
    goFiles dec T false (entriesOf fls) j s =
      (entriesOf (dropFls T fls), mergeFls dec T fls j, s) := by
  intro fls
  induction fls with
  | nil => intro j s _; simp [goFiles, entriesOf, dropFls, mergeFls]
  | cons pl tl ih =>
    intro j s hsort
    rw [show entriesOf (pl :: tl) = mkEntry pl.1 pl.2 :: entriesOf tl from rfl, goFiles]
    rw [processEntry_spec dec T false pl.1 pl.2 j s (hsort pl (List.mem_cons_self pl tl))]
    simp only
    have hmatch :
      (match (pl.2.dropWhile (belowEq T)).head? with
       | some r => if false = true then rowTs r else s
       | none => s) = s := by
      cases (pl.2.dropWhile (belowEq T)).head? <;> simp
    rw [hmatch, ih _ _ (fun q hq => hsort q (List.mem_cons_of_mem pl hq))]
    rfl

/-- The full file pass of the merge step: the head file is the primary and
pre-sets the watermark from its first unconsumed row. -/
theorem goFiles_true_spec (dec : String → Row → Obj) (T : Nat)
    (p0 : String) (l0 : List Row) (tl : List (String × List Row)) (j : Obj) (s : Nat)
    (hsort : ∀ pl ∈ (p0, l0) :: tl, TsSorted pl.2) :
    goFiles dec T true (entriesOf ((p0, l0) :: tl)) j s =
      (entriesOf (dropFls T ((p0, l0) :: tl)),
       mergeFls dec T ((p0, l0) :: tl) j,
       match (l0.dropWhile (belowEq T)).head? with
       | some r => rowTs r
       | none => s) := by
  rw [show entriesOf ((p0, l0) :: tl) = mkEntry p0 l0 :: entriesOf tl from rfl, goFiles]
  rw [processEntry_spec dec T true p0 l0 j s (hsort (p0, l0) (List.mem_cons_self _ tl))]
  simp only
  rw [goFiles_false_spec dec T tl _ _ (fun q hq => hsort q (List.mem_cons_of_mem _ hq))]
  cases (l0.dropWhile (belowEq T)).head? <;> rfl

theorem tsSorted_dropWhile {l : List Row} (p : Row → Bool) (hs : TsSorted l) :
    TsSorted (l.dropWhile p) :=
  List.Pairwise.sublist (List.dropWhile_sublist p) hs

/-- Every row surviving the consumed prefix of a sorted list is strictly
above the watermark. -/
theorem mem_dropWhile_gt {T : Nat} {l : List Row} (hs : TsSorted l) :
    ∀ r ∈ l.dropWhile (belowEq T), T < rowTs r := by
  intro r hr
  cases hl : l.dropWhile (belowEq T) with
  | nil => rw [hl] at hr; cases hr
  | cons x xs =>
    have hx : belowEq T x = false := by
      have h := List.head?_dropWhile_not (belowEq T) l
      rw [hl] at h
      simpa using h
    have hTx : T < rowTs x := by simp [belowEq] at hx; omega
    have hs2 : TsSorted (x :: xs) := hl ▸ tsSorted_dropWhile _ hs
    rw [hl] at hr
    rcases List.mem_cons.mp hr with hr | hr
    · exact hr ▸ hTx
    · exact lt_of_lt_of_le hTx ((List.pairwise_cons.mp hs2).1 r hr)

/-- Rows at a timestamp strictly above the watermark are untouched by
removing the consumed prefix of a sorted list. -/
theorem filter_atTs_dropWhile {T U : Nat} (hTU : T < U) :
    ∀ {l : List Row}, TsSorted l →
    (l.dropWhile (belowEq T)).filter (atTs U) = l.filter (atTs U) := by
  intro l
  induction l with
  | nil => intro _; rfl
  | cons x xs ih =>
    intro hs
    by_cases hx : belowEq T x = true
    · have hxT : rowTs x ≤ T := by simpa [belowEq] using hx
      have hne : atTs U x = false := by simp [atTs]; omega
      rw [List.dropWhile_cons_of_pos hx, ih (List.pairwise_cons.mp hs).2,
        List.filter_cons, hne]
      simp
    · rw [List.dropWhile_cons_of_neg hx]

/-- Structure of the distinct timestamps of a sorted row list whose head
has timestamp `T`: the first distinct timestamp is `T` and the remaining
ones are the distinct timestamps of the rows above `T`. -/
theorem dedup_map_rowTs {T : Nat} :
    ∀ {l : List Row}, TsSorted l → (∀ r ∈ l.head?, rowTs r = T) → l ≠ [] →
    (l.map rowTs).dedup = T :: ((l.dropWhile (belowEq T)).map rowTs).dedup := by
  intro l
  induction l with
  | nil => intro _ _ h; exact absurd rfl h
  | cons r0 rest ih =>
    intro hs hhd _
    have hr0 : rowTs r0 = T := hhd r0 rfl
    have hrest : TsSorted rest := (List.pairwise_cons.mp hs).2
    have hle : ∀ r ∈ rest, rowTs r0 ≤ rowTs r := (List.pairwise_cons.mp hs).1
    have hdrop0 : (r0 :: rest).dropWhile (belowEq T) = rest.dropWhile (belowEq T) :=
      List.dropWhile_cons_of_pos (by simp [belowEq, hr0])
    rw [hdrop0]
    cases rest with
    | nil => simp [hr0]
    | cons r1 rest2 =>
      by_cases h1 : rowTs r1 = T
      · have hmem : T ∈ (r1 :: rest2).map rowTs :=
          List.mem_map.mpr ⟨r1, List.mem_cons_self _ _, h1⟩
        rw [List.map_cons, hr0, List.dedup_cons_of_mem hmem]
        exact ih hrest (by intro r hr; cases hr; exact h1) (by simp)
      · have h1T : T < rowTs r1 := by
          have := hle r1 (List.mem_cons_self _ _)
          omega
        have hgt : ∀ r ∈ r1 :: rest2, T < rowTs r := by
          intro r hr
          rcases List.mem_cons.mp hr with hr | hr
          · exact hr ▸ h1T
          · have h2 := (List.pairwise_cons.mp hrest).1 r hr
            omega
        have hnotmem : T ∉ (r1 :: rest2).map rowTs := by
          intro hmem
          obtain ⟨r, hr, hrT⟩ := List.mem_map.mp hmem
          exact absurd (hrT ▸ hgt r hr) (lt_irrefl T)
        have hdrop1 : (r1 :: rest2).dropWhile (belowEq T) = r1 :: rest2 :=
          List.dropWhile_cons_of_neg (by simp [belowEq]; omega)
        rw [List.map_cons, hr0, List.dedup_cons_of_not_mem hnotmem, hdrop1]

theorem filter_atTs_eq_nil_of_gt {T : Nat} {l : List Row} (hs : TsSorted l)
    (hhd : ∀ r ∈ l.head?, T < rowTs r) : l.filter (atTs T) = [] := by
  cases l with
  | nil => rfl
  | cons x xs =>
    rw [List.filter_eq_nil_iff]
    intro r hr
    have hx : T < rowTs x := hhd x rfl
    rcases List.mem_cons.mp hr with hr | hr
    · subst hr; simp [atTs]; omega
    · have := (List.pairwise_cons.mp hs).1 r hr
      simp [atTs]; omega

theorem mergeFls_of_filters_nil {dec : String → Row → Obj} {T : Nat} :
    ∀ {fls : List (String × List Row)} {j : Obj},
    (∀ pl ∈ fls, pl.2.filter (atTs T) = []) → mergeFls dec T fls j = j := by
  intro fls
  induction fls with
  | nil => intro j _; rfl
  | cons pl tl ih =>
    intro j h
    rw [mergeFls, List.foldl_cons, h pl (List.mem_cons_self _ _)]
    exact ih (fun q hq => h q (List.mem_cons_of_mem _ hq))

/-- Removing the consumed prefixes at watermark `T` does not change the
merge computed at any later watermark `U`. -/
theorem mergeFls_dropFls {dec : String → Row → Obj} {T U : Nat} (hTU : T < U) :
    ∀ {fls : List (String × List Row)} {j : Obj},
    (∀ pl ∈ fls, TsSorted pl.2) →
    mergeFls dec U (dropFls T fls) j = mergeFls dec U fls j := by
  intro fls
  induction fls with
  | nil => intro j _; rfl
  | cons pl tl ih =>
    intro j hsort
    show mergeFls dec U ((pl.1, pl.2.dropWhile (belowEq T)) :: dropFls T tl) j = _
    rw [mergeFls, List.foldl_cons, mergeFls, List.foldl_cons]
    simp only
    rw [filter_atTs_dropWhile hTU (hsort pl (List.mem_cons_self _ _))]
    exact ih (fun q hq => hsort q (List.mem_cons_of_mem _ hq))


theorem entrySize_mkEntry (p : String) (l : List Row) :
    entrySize (mkEntry p l) = l.length := by
  cases l with
  | nil => rfl
  | cons x xs => simp [entrySize, mkEntry]; omega

/-- Main characterization of the merge iteration: from a state satisfying
the watermark invariant over sorted row lists, pulling until exhaustion
yields exactly the spec-predicted output, provided the fuel covers the
number of distinct primary timestamps and the decoder never returns an
empty record. -/
theorem iterN_spec (dec : String → Row → Obj) (hdec : ∀ b r, dec b r ≠ []) :
    ∀ (n : Nat) (fls : List (String × List Row)) (T : Nat) (fns : List String) (cp : String),
    (∀ pl ∈ fls, TsSorted pl.2) → GoodHd fls T → numDistinct fls ≤ n →
    iterN dec n ⟨fns, entriesOf fls, T, cp⟩ = expectedFrom dec fls := by
  intro n
  induction n with
  | zero =>
    intro fls T fns cp _ _ hn
    cases fls with
    | nil => rfl
    | cons pl tl =>
      obtain ⟨p0, l0⟩ := pl
      have hlen : (l0.map rowTs).dedup.length = 0 := Nat.le_zero.mp hn
      have hl0 : l0 = [] := by
        have hd : (l0.map rowTs).dedup = [] := List.length_eq_zero.mp hlen
        have hm : l0.map rowTs = [] := (List.dedup_eq_nil _).mp hd
        exact List.map_eq_nil_iff.mp hm
      subst hl0
      show ([] : List (Nat × Obj)) = expectedFrom dec ((p0, []) :: tl)
      simp [expectedFrom]
  | succ n ih =>
    intro fls T fns cp hsort hgood hn
    cases fls with
    | nil =>
      show iterN dec (n + 1) ⟨fns, [], T, cp⟩ = []
      rw [iterN]
      rfl
    | cons pl tl =>
      obtain ⟨p0, l0⟩ := pl
      cases l0 with
      | nil =>
        have hgt : ∀ q ∈ (p0, ([] : List Row)) :: tl, ∀ r ∈ q.2.head?, T < rowTs r :=
          hgood.2 rfl
        have hfil : ∀ q ∈ (p0, ([] : List Row)) :: tl, q.2.filter (atTs T) = [] :=
          fun q hq => filter_atTs_eq_nil_of_gt (hsort q hq) (hgt q hq)
        rw [iterN]
        have hnone : nextRecord dec ⟨fns, entriesOf ((p0, []) :: tl), T, cp⟩ = none := by
          rw [nextRecord]
          simp only
          rw [goFiles_true_spec dec T p0 [] tl [] T hsort,
            mergeFls_of_filters_nil hfil]
          rfl
        rw [hnone]
        show ([] : List (Nat × Obj)) = expectedFrom dec ((p0, []) :: tl)
        simp [expectedFrom]
      | cons r0 l0x =>
        have hT : rowTs r0 = T := hgood.1 r0 rfl
        have hJ : mergeFls dec T ((p0, r0 :: l0x) :: tl) [] ≠ [] := by
          rw [mergeFls, List.foldl_cons]
          apply mergeFls_ne_nil_of_ne_nil
          apply mergeRows_ne_nil_of_mem hdec
          have : r0 ∈ (r0 :: l0x).filter (atTs T) :=
            List.mem_filter.mpr ⟨List.mem_cons_self _ _, by simp [atTs, hT]⟩
          exact List.ne_nil_of_mem this
        have hsort0 : TsSorted (r0 :: l0x) := hsort (p0, r0 :: l0x) (List.mem_cons_self _ _)
        have hnr : nextRecord dec ⟨fns, entriesOf ((p0, r0 :: l0x) :: tl), T, cp⟩ =
            some ((T, mergeFls dec T ((p0, r0 :: l0x) :: tl) []),
              ⟨fns, entriesOf (dropFls T ((p0, r0 :: l0x) :: tl)),
                (match ((r0 :: l0x).dropWhile (belowEq T)).head? with
                 | some r => rowTs r
                 | none => T), cp⟩) := by
          rw [nextRecord]
          simp only
          rw [goFiles_true_spec dec T p0 (r0 :: l0x) tl [] T hsort]
          simp only [List.isEmpty_eq_false.mpr hJ]
          rfl
        rw [iterN, hnr]
        simp only
        have hsort2 : ∀ q ∈ dropFls T ((p0, r0 :: l0x) :: tl), TsSorted q.2 := by
          intro q hq
          obtain ⟨q0, hq0, hq0e⟩ := List.mem_map.mp hq
          subst hq0e
          exact tsSorted_dropWhile _ (hsort q0 hq0)
        have hdropeq : dropFls T ((p0, r0 :: l0x) :: tl) =
            (p0, (r0 :: l0x).dropWhile (belowEq T)) :: dropFls T tl := rfl
        have hgood2 : GoodHd (dropFls T ((p0, r0 :: l0x) :: tl))
            (match ((r0 :: l0x).dropWhile (belowEq T)).head? with
             | some r => rowTs r
             | none => T) := by
          rw [hdropeq]
          constructor
          · intro r hr
            have hr2 : ((r0 :: l0x).dropWhile (belowEq T)).head? = some r := hr
            rw [hr2]
          · intro hd0 q hq r hr
            rw [hd0]
            simp only [List.head?_nil]
            rcases List.mem_cons.mp hq with hq | hq
            · rw [hq] at hr
              have hr2 : ((r0 :: l0x).dropWhile (belowEq T)).head? = some r := hr
              rw [hd0] at hr2
              cases hr2
            · obtain ⟨q0, hq0, hq0e⟩ := List.mem_map.mp hq
              subst hq0e
              exact mem_dropWhile_gt (hsort q0 (List.mem_cons_of_mem _ hq0)) r
                (List.mem_of_mem_head? hr)
        have hdedup : ((r0 :: l0x).map rowTs).dedup =
            T :: (((r0 :: l0x).dropWhile (belowEq T)).map rowTs).dedup :=
          dedup_map_rowTs hsort0 (fun r hr => by cases hr; exact hT) (by simp)
        have hn2 : numDistinct (dropFls T ((p0, r0 :: l0x) :: tl)) ≤ n := by
          have : numDistinct ((p0, r0 :: l0x) :: tl) =
              (((r0 :: l0x).dropWhile (belowEq T)).map rowTs).dedup.length + 1 := by
            rw [show numDistinct ((p0, r0 :: l0x) :: tl) =
              ((r0 :: l0x).map rowTs).dedup.length from rfl, hdedup]
            rfl
          rw [this] at hn
          exact Nat.lt_succ_iff.mp (Nat.lt_of_lt_of_le (Nat.lt_succ_self _) hn)
        rw [ih (dropFls T ((p0, r0 :: l0x) :: tl)) _ fns cp hsort2 hgood2 hn2]
        symm
        show expectedFrom dec ((p0, r0 :: l0x) :: tl) =
          (T, mergeFls dec T ((p0, r0 :: l0x) :: tl) []) ::
            expectedFrom dec (dropFls T ((p0, r0 :: l0x) :: tl))
        rw [show expectedFrom dec ((p0, r0 :: l0x) :: tl) =
            ((r0 :: l0x).map rowTs).dedup.map
              (fun U => (U, mergeFls dec U ((p0, r0 :: l0x) :: tl) [])) from rfl,
          hdedup, List.map_cons]
        congr 1
        rw [show expectedFrom dec (dropFls T ((p0, r0 :: l0x) :: tl)) =
            (((r0 :: l0x).dropWhile (belowEq T)).map rowTs).dedup.map
              (fun U => (U, mergeFls dec U (dropFls T ((p0, r0 :: l0x) :: tl)) [])) from rfl]
        apply List.map_congr_left
        intro U hU
        have hTU : T < U := by
          have hUm := List.mem_dedup.mp hU
          obtain ⟨r, hr, hre⟩ := List.mem_map.mp hUm
          exact hre ▸ mem_dropWhile_gt hsort0 r hr
        rw [mergeFls_dropFls hTU hsort]

/-- A successful connect loop primes exactly the lookahead entries over
the row lists the filesystem holds, and implies every registered file had
at least one row (the loop raises on empty files). -/
theorem connectFiles_spec (fs : String → OpenResult) :
    ∀ (fls : List (String × List Row)) (es : List FileEntry),
    (∀ pl ∈ fls, fs pl.1 = OpenResult.ok pl.2) →
    connectFiles fs (fls.map Prod.fst) = .ok es →
    es = entriesOf fls ∧ ∀ pl ∈ fls, pl.2 ≠ [] := by
  intro fls
  induction fls with
  | nil =>
    intro es _ h
    simp only [List.map_nil, connectFiles, Except.ok.injEq] at h
    exact ⟨h.symm, by simp⟩
  | cons pl tl ih =>
    obtain ⟨p, l⟩ := pl
    intro es hfs h
    have hf : fs p = .ok l := hfs (p, l) (List.mem_cons_self _ _)
    cases l with
    | nil => simp [connectFiles, connectFile, hf] at h
    | cons r lr =>
      simp only [List.map_cons, connectFiles, connectFile, hf, List.head?_cons] at h
      by_cases hk : (KEYS_COMMON.all (fun k => (r.lookup k).isSome)) = true
      · rw [if_pos hk] at h
        cases hrec : connectFiles fs (tl.map Prod.fst) with
        | error e => rw [hrec] at h; cases h
        | ok es2 =>
          rw [hrec] at h
          obtain ⟨h1, h2⟩ := ih es2 (fun q hq => hfs q (List.mem_cons_of_mem _ hq)) hrec
          simp only [Except.ok.injEq] at h
          refine ⟨?_, ?_⟩
          · rw [← h, h1]; rfl
          · intro q hq
            rcases List.mem_cons.mp hq with hq | hq
            · rw [hq]; simp
            · exact h2 q hq
      · rw [if_neg hk] at h; cases h

/-- Shared characterization: a store obtained from a successful `connect`
over registered files holding sorted row lists iterates to exactly the
spec-predicted merged output. -/
theorem run_connect_spec (dec : String → Row → Obj) (fs : String → OpenResult)
    (st0 st : CsvDB) (fls : List (String × List Row))
    (hdec : ∀ b r, dec b r ≠ [])
    (hnames : st0.filenames = fls.map Prod.fst)
    (hfs : ∀ pl ∈ fls, fs pl.1 = OpenResult.ok pl.2)
    (hsort : ∀ pl ∈ fls, TsSorted pl.2)
    (hconn : connect fs st0 = .ok st) :
    run dec st = expectedFrom dec fls := by
  rw [connect, hnames] at hconn
  cases hcf : connectFiles fs (fls.map Prod.fst) with
  | error e => rw [hcf] at hconn; cases hconn
  | ok es =>
    rw [hcf] at hconn
    obtain ⟨hes, hne⟩ := connectFiles_spec fs fls es hfs hcf
    subst hes
    cases fls with
    | nil =>
      simp only [entriesOf, List.map_nil, List.head?_nil, Except.ok.injEq] at hconn
      rw [← hconn]
      rfl
    | cons pl tl =>
      obtain ⟨p, l⟩ := pl
      have hlne : l ≠ [] := hne (p, l) (List.mem_cons_self _ _)
      cases l with
      | nil => exact absurd rfl hlne
      | cons r0 lr =>
        rw [show entriesOf ((p, r0 :: lr) :: tl) =
          mkEntry p (r0 :: lr) :: entriesOf tl from rfl] at hconn
        simp only [List.head?_cons, mkEntry, Except.ok.injEq] at hconn
        rw [← hconn]
        have hgood : GoodHd ((p, r0 :: lr) :: tl) (rowTs r0) := by
          constructor
          · intro r hr
            have hr2 : some r0 = some r := hr
            injection hr2 with h
            rw [← h]
          · intro hcontra
            exact absurd hcontra (by simp)
        have hfuel : numDistinct ((p, r0 :: lr) :: tl) ≤
            totalRows { filenames := List.map Prod.fst ((p, r0 :: lr) :: tl),
                        tmp_read := entriesOf ((p, r0 :: lr) :: tl),
                        saved_timestamp := rowTs r0,
                        current_path := st0.current_path } + 1 := by
          have h1 : ((r0 :: lr).map rowTs).dedup.length ≤ (r0 :: lr).length := by
            calc ((r0 :: lr).map rowTs).dedup.length
                ≤ ((r0 :: lr).map rowTs).length := (List.dedup_sublist _).length_le
              _ = (r0 :: lr).length := List.length_map _ _
          have h2 : (r0 :: lr).length ≤
              totalRows { filenames := List.map Prod.fst ((p, r0 :: lr) :: tl),
                          tmp_read := entriesOf ((p, r0 :: lr) :: tl),
                          saved_timestamp := rowTs r0,
                          current_path := st0.current_path } := by
            rw [totalRows]
            rw [show entriesOf ((p, r0 :: lr) :: tl) =
              mkEntry p (r0 :: lr) :: entriesOf tl from rfl]
            rw [List.map_cons, List.sum_cons, entrySize_mkEntry]
            exact Nat.le_add_right _ _
          have h3 : numDistinct ((p, r0 :: lr) :: tl) =
              ((r0 :: lr).map rowTs).dedup.length := rfl
          omega
        show iterN dec
            (totalRows { filenames := List.map Prod.fst ((p, r0 :: lr) :: tl),
                         tmp_read := entriesOf ((p, r0 :: lr) :: tl),
                         saved_timestamp := rowTs r0,
                         current_path := st0.current_path } + 1)
            { filenames := List.map Prod.fst ((p, r0 :: lr) :: tl),
              tmp_read := entriesOf ((p, r0 :: lr) :: tl),
              saved_timestamp := rowTs r0,
              current_path := st0.current_path } =
          expectedFrom dec ((p, r0 :: lr) :: tl)
        exact iterN_spec dec hdec _ ((p, r0 :: lr) :: tl) (rowTs r0)
          (List.map Prod.fst ((p, r0 :: lr) :: tl)) st0.current_path hsort hgood hfuel

/-! Helper lemmas for the write path. -/

theorem fsGet_fsSet_self (fs : WriteFS) (p : String) (c : List (List String)) :
    fsGet (fsSet fs p c) p = some c := by
  induction fs with
  | nil => simp [fsSet, fsGet, List.lookup]
  | cons qd tl ih =>
    obtain ⟨q, d⟩ := qd
    rw [fsSet]
    by_cases h : q = p
    · rw [if_pos h]
      simp [fsGet, List.lookup, h]
    · rw [if_neg h]
      rw [fsGet, List.lookup]
      have : (p == q) = false := by
        simp only [beq_eq_false_iff_ne, ne_eq]
        exact fun hc => h hc.symm
      rw [this]
      exact ih

theorem insertSorted_perm (x : String) (l : List String) :
    List.Perm (insertSorted x l) (x :: l) := by
  induction l with
  | nil => exact List.Perm.refl _
  | cons y ys ih =>
    rw [insertSorted]
    by_cases h : x ≤ y
    · rw [if_pos h]
    · rw [if_neg h]
      exact List.Perm.trans (List.Perm.cons y ih) (List.Perm.swap x y ys)

theorem sortStrings_perm (l : List String) : List.Perm (sortStrings l) l := by
  induction l with
  | nil => exact List.Perm.refl _
  | cons x xs ih =>
    exact List.Perm.trans (insertSorted_perm x (sortStrings xs)) (List.Perm.cons x ih)

theorem insertSorted_sorted (x : String) {l : List String}
    (hs : l.Pairwise (· ≤ ·)) : (insertSorted x l).Pairwise (· ≤ ·) := by
  induction l with
  | nil => simp [insertSorted]
  | cons y ys ih =>
    rw [insertSorted]
    by_cases h : x ≤ y
    · rw [if_pos h]
      refine List.pairwise_cons.mpr ⟨?_, hs⟩
      intro a ha
      rcases List.mem_cons.mp ha with ha | ha
      · exact ha ▸ h
      · exact le_trans h ((List.pairwise_cons.mp hs).1 a ha)
    · rw [if_neg h]
      have hyx : y ≤ x := le_of_not_le h
      refine List.pairwise_cons.mpr ⟨?_, ih (List.pairwise_cons.mp hs).2⟩
      intro a ha
      have ha2 : a ∈ x :: ys := (insertSorted_perm x ys).mem_iff.mp ha
      rcases List.mem_cons.mp ha2 with ha2 | ha2
      · exact ha2 ▸ hyx
      · exact (List.pairwise_cons.mp hs).1 a ha2

theorem sortStrings_sorted (l : List String) : (sortStrings l).Pairwise (· ≤ ·) := by
  induction l with
  | nil => exact List.Pairwise.nil
  | cons x xs ih => exact insertSorted_sorted x ih

/-- Sorting is determined by the multiset of elements. -/
theorem sortStrings_eq_of_perm {l1 l2 : List String} (h : List.Perm l1 l2) :
    sortStrings l1 = sortStrings l2 := by
  exact List.eq_of_perm_of_sorted
    ((sortStrings_perm l1).trans (h.trans (sortStrings_perm l2).symm))
    (sortStrings_sorted l1) (sortStrings_sorted l2)

/-- If every path before `p` opens and primes successfully, the loop fate
is decided by `p`: its error aborts the whole connect loop. -/
theorem connectFiles_append_error (fs : String → OpenResult) (p : String)
    (post : List String) (err : ConnErr) :
    ∀ pre : List String, (∀ q ∈ pre, ∃ e, connectFile fs q = .ok e) →
    connectFile fs p = .error err →
    connectFiles fs (pre ++ p :: post) = .error err := by
  intro pre
  induction pre with
  | nil =>
    intro _ hp
    rw [List.nil_append, connectFiles, hp]
  | cons q qs ih =>
    intro hpre hp
    obtain ⟨e, he⟩ := hpre q (List.mem_cons_self _ _)
    rw [List.cons_append, connectFiles, he,
      ih (fun a ha => hpre a (List.mem_cons_of_mem _ ha)) hp]

/-- C10: for every record, `save` (whether it succeeds or fails) leaves the
read-path state of the store unchanged: the registered file list, every
per-file cursor and lookahead row, and the current watermark are exactly
the same after the call as before it.  The embedded `save` returns the
store alongside the filesystem, and the returned store is the input store:
the source method assigns no attribute of `self`. -/
theorem save_preserves_read_state
    (enc : List (String × String) → List (String × List (String × String)))
    (st : CsvDB) (fs : WriteFS) (report : List (String × String)) :
    (save enc st fs report).1 = st := rfl

/-- C3 (code bug): for a registered file that opens but contains no rows,
`connect` does not succeed with an exhausted lookahead as the spec states;
the membership check `key not in next_line` runs with `next_line = None`
and raises an uncaught `TypeError`.  Concrete failing input: primary file
`A` with one well-formed row, secondary file `B` with no rows. -/
theorem connect_empty_file_type_error :
    connect
      (fun p => if p = "A" then
          OpenResult.ok
            [[("timestamp", "1"), ("sensor", "s"), ("target", "t"),
              ("socket", "0"), ("cpu", "0")]]
        else OpenResult.ok [])
      ⟨["A", "B"], [], 0, "/tmp/"⟩ = .error .pyTypeError := by
  rfl

/-- C4 (code bug): appending to a target file that already exists with no
rows does not write the header line first as the spec states; the on-disk
fieldnames are `None`, the inequality with the computed header holds, and
the call raises `HeaderAreNotTheSameError` without writing anything.  The
`header_exist` flag of the source shows the headerless case was meant to
fall through to the header write. -/
theorem save_empty_file_header_mismatch :
    saveGroup "f.csv" [("power", "1")] [("f.csv", [])] =
      ([("f.csv", [])], some SaveErr.headerAreNotTheSame) := by
  rfl

/-- C8: a lookahead row strictly below the watermark is consumed as a
no-op by the inner loop of the merge step: the cursor advances past it,
the accumulator and the pre-set next watermark are untouched, and the step
is a total function (no error path exists for this case). -/
theorem stale_row_noop (dec : String → Row → Obj) (b : String) (T : Nat)
    (isPrim : Bool) (row : Row) (rest : List Row) (json : Obj) (saved : Nat)
    (h : rowTs row < T) :
    consumeRows dec b T isPrim (row :: rest) json saved =
      consumeRows dec b T isPrim rest json saved := by
  rw [consumeRows, if_neg (by omega), if_neg (by omega)]

/-- Witness for `stale_row_noop` at a concrete stale row. -/
theorem stale_row_noop_witness :
    rowTs [("timestamp", "1")] < 2 ∧
    consumeRows (fun _ _ => []) "b" 2 false ([("timestamp", "1")] :: []) [] 0 =
      consumeRows (fun _ _ => []) "b" 2 false [] [] 0 :=
  ⟨by decide, stale_row_noop (fun _ _ => []) "b" 2 false _ _ [] 0 (by decide)⟩

/-- C6 (counterexample): a registered path that exists but is not readable
does not fail `connect` with `CsvBadFilePathError`; the source catches
only `FileNotFoundError`, so the `PermissionError` propagates as itself. -/
theorem connect_permission_denied_counterexample :
    connect (fun _ => OpenResult.permissionDenied) ⟨["A"], [], 0, "/"⟩ =
      .error .permissionError ∧
    connect (fun _ => OpenResult.permissionDenied) ⟨["A"], [], 0, "/"⟩ ≠
      .error .csvBadFilePath := by
  constructor
  · rfl
  · intro h
    rw [show connect (fun _ => OpenResult.permissionDenied) ⟨["A"], [], 0, "/"⟩ =
      .error .permissionError from rfl] at h
    simp at h

/-- C6 (amended): for every registered path whose open is the first to
fail, `connect` fails with `CsvBadFilePathError` when the path does not
exist, and with the propagated `PermissionError` (not the BadFilePath
error) when the path exists but is not readable; either way the open
failure aborts `connect` entirely. -/
theorem connect_open_failure_errors (fs : String → OpenResult) (st : CsvDB)
    (pre post : List String) (p : String)
    (hst : st.filenames = pre ++ p :: post)
    (hpre : ∀ q ∈ pre, ∃ e, connectFile fs q = .ok e) :
    (fs p = .notFound → connect fs st = .error .csvBadFilePath) ∧
    (fs p = .permissionDenied → connect fs st = .error .permissionError) := by
  constructor
  · intro hp
    rw [connect, hst,
      connectFiles_append_error fs p post .csvBadFilePath pre hpre
        (by rw [connectFile, hp])]
  · intro hp
    rw [connect, hst,
      connectFiles_append_error fs p post .permissionError pre hpre
        (by rw [connectFile, hp])]

/-- Witness for `connect_open_failure_errors`: a missing second file after
one healthy file yields the BadFilePath error. -/
theorem connect_open_failure_errors_witness :
    (∀ q ∈ ["G"], ∃ e,
      connectFile
        (fun x => if x = "G" then
            OpenResult.ok
              [[("timestamp", "1"), ("sensor", "s"), ("target", "t"),
                ("socket", "0"), ("cpu", "0")]]
          else OpenResult.notFound) q = .ok e) ∧
    connect
      (fun x => if x = "G" then
          OpenResult.ok
            [[("timestamp", "1"), ("sensor", "s"), ("target", "t"),
              ("socket", "0"), ("cpu", "0")]]
        else OpenResult.notFound)
      ⟨["G", "A"], [], 0, "/"⟩ = .error .csvBadFilePath := by
  refine ⟨?_, ?_⟩
  · intro q hq
    refine ⟨⟨"G", some [("timestamp", "1"), ("sensor", "s"), ("target", "t"),
      ("socket", "0"), ("cpu", "0")], []⟩, ?_⟩
    have hq2 : q = "G" := by
      rcases List.mem_cons.mp hq with h | h
      · exact h
      · cases h
    rw [hq2]
    rfl
  · exact (connect_open_failure_errors _ _ ["G"] [] "A" rfl
      (by
        intro q hq
        refine ⟨⟨"G", some [("timestamp", "1"), ("sensor", "s"), ("target", "t"),
          ("socket", "0"), ("cpu", "0")], []⟩, ?_⟩
        have hq2 : q = "G" := by
          rcases List.mem_cons.mp hq with h | h
          · exact h
          · cases h
        rw [hq2]
        rfl)).1 rfl

/-- C2 (counterexample): a `save` whose codec expands the record into two
groups, where the first group targets a fresh file and the second an
existing file with a different header, fails with `HeaderMismatch` but
leaves the first group written: the on-disk files are not as before the
call. -/
theorem save_partial_write_counterexample :
    (save (fun _ => [("g1", []), ("g2", [])]) ⟨[], [], 0, "/d/"⟩
        [("/d/s-t/g2.csv", [["x"]])] [("sensor", "s"), ("target", "t")]).2.2 =
      some SaveErr.headerAreNotTheSame ∧
    (save (fun _ => [("g1", []), ("g2", [])]) ⟨[], [], 0, "/d/"⟩
        [("/d/s-t/g2.csv", [["x"]])] [("sensor", "s"), ("target", "t")]).2.1 ≠
      [("/d/s-t/g2.csv", [["x"]])] := by
  constructor
  · rfl
  · decide

/-- C2 (amended): when `save` fails with `HeaderMismatch` while processing
a group, the file of that failing group is left exactly as it was (the
validation runs before the write step of that group); groups processed
earlier in the same call have already been written and are not rolled
back, so for a single-group record the on-disk files are exactly as
before the call. -/
theorem saveGroup_error_frame (path : String) (values : List (String × String))
    (fs : WriteFS) (e : SaveErr) (h : (saveGroup path values fs).2 = some e) :
    (saveGroup path values fs).1 = fs := by
  cases hget : fsGet fs path with
  | none =>
    simp only [saveGroup, hget] at h
    cases h
  | some content =>
    simp only [saveGroup, hget] at h ⊢
    by_cases hfn : content.head? ≠ some (computeHeader values)
    · rw [if_pos hfn]
    · rw [if_neg hfn] at h
      simp at h

/-- Witness for `saveGroup_error_frame` at a concrete mismatching file. -/
theorem saveGroup_error_frame_witness :
    (saveGroup "f" [] [("f", [["x"]])]).2 = some SaveErr.headerAreNotTheSame ∧
    (saveGroup "f" [] [("f", [["x"]])]).1 = [("f", [["x"]])] :=
  ⟨by decide, saveGroup_error_frame "f" [] [("f", [["x"]])]
    SaveErr.headerAreNotTheSame (by decide)⟩

/-- C5: after a first successful `save` for a `(sensor, target, group)`
file, a second `save` to the same file fails with `HeaderMismatch` exactly
when its computed header differs from the header the first call left on
disk (which is the first calls computed header); identical computed
headers never raise. -/
theorem save_header_stability (path : String)
    (vals1 vals2 : List (String × String)) (fs fs1 : WriteFS)
    (h1 : saveGroup path vals1 fs = (fs1, none)) :
    ((saveGroup path vals2 fs1).2 = some SaveErr.headerAreNotTheSame ↔
      computeHeader vals2 ≠ computeHeader vals1) := by
  have hstate : ∃ c, fsGet fs1 path = some c ∧ c.head? = some (computeHeader vals1) := by
    cases hget : fsGet fs path with
    | none =>
      simp only [saveGroup, hget, Prod.mk.injEq] at h1
      exact ⟨[computeHeader vals1, rowOf (computeHeader vals1) vals1],
        h1.1 ▸ fsGet_fsSet_self fs path _, rfl⟩
    | some content =>
      simp only [saveGroup, hget] at h1
      by_cases hfn : content.head? ≠ some (computeHeader vals1)
      · rw [if_pos hfn] at h1
        rw [Prod.mk.injEq] at h1
        exact absurd h1.2 (by simp)
      · rw [if_neg hfn] at h1
        rw [Prod.mk.injEq] at h1
        obtain ⟨hfs1, -⟩ := h1
        push_neg at hfn
        obtain ⟨c0, cr, rfl⟩ : ∃ c0 cr, content = c0 :: cr := by
          cases content with
          | nil => cases hfn
          | cons c0 cr => exact ⟨c0, cr, rfl⟩
        refine ⟨_, hfs1 ▸ fsGet_fsSet_self fs path _, ?_⟩
        have hc0 : c0 = computeHeader vals1 := by
          have hx := hfn
          rw [List.head?_cons] at hx
          exact Option.some.inj hx
        simp [hc0]
  obtain ⟨c, hc, hhd⟩ := hstate
  simp only [saveGroup, hc]
  by_cases heq : computeHeader vals2 = computeHeader vals1
  · have hcond : ¬ (c.head? ≠ some (computeHeader vals2)) := by
      rw [hhd, heq]
      simp
    rw [if_neg hcond]
    simp [heq]
  · have hcond : c.head? ≠ some (computeHeader vals2) := by
      rw [hhd]
      simp only [ne_eq, Option.some.injEq]
      exact fun hx => heq hx.symm
    rw [if_pos hcond]
    simp [heq]

/-- Witness for `save_header_stability`: first write with field `a`, then
a write with field `b` to the same file; the mismatch raises, and the
equivalence instantiates to the differing headers. -/
theorem save_header_stability_witness :
    saveGroup "f" [("a", "1")] [] =
      ([("f", [["timestamp", "sensor", "target", "socket", "cpu", "a"],
               ["", "", "", "", "", "1"]])], none) ∧
    ((saveGroup "f" [("b", "2")]
        [("f", [["timestamp", "sensor", "target", "socket", "cpu", "a"],
                ["", "", "", "", "", "1"]])]).2 =
          some SaveErr.headerAreNotTheSame ↔
      computeHeader [("b", "2")] ≠ computeHeader [("a", "1")]) :=
  ⟨rfl, save_header_stability "f" [("a", "1")] [("b", "2")] []
    [("f", [["timestamp", "sensor", "target", "socket", "cpu", "a"],
            ["", "", "", "", "", "1"]])] rfl⟩

/-- C7: the computed header of every group field map is the literal common
prefix `timestamp, sensor, target, socket, cpu` followed by the distinct
non-common keys sorted strictly ascending; membership in the suffix is
exactly being a non-common key of the field map; and the header is
deterministic in the key multiset, independent of the order the fields
were produced in. -/
theorem compute_header_spec (values : List (String × String)) :
    (computeHeader values).take 5 =
      ["timestamp", "sensor", "target", "socket", "cpu"] ∧
    ((computeHeader values).drop 5).Pairwise (· < ·) ∧
    (∀ k, k ∈ (computeHeader values).drop 5 ↔
      (k ∈ values.map Prod.fst ∧ k ∉ KEYS_COMMON)) ∧
    (∀ values2 : List (String × String),
      List.Perm (values.map Prod.fst) (values2.map Prod.fst) →
      computeHeader values = computeHeader values2) := by
  have hdrop : ∀ v : List (String × String), (computeHeader v).drop 5 =
      sortStrings (((v.map Prod.fst).filter
        (fun k => !(KEYS_COMMON.contains k))).dedup) := by
    intro v
    rw [computeHeader]
    rfl
  refine ⟨?_, ?_, ?_, ?_⟩
  · rw [computeHeader]
    rfl
  · rw [hdrop]
    have hle : (sortStrings (((values.map Prod.fst).filter
        (fun k => !(KEYS_COMMON.contains k))).dedup)).Pairwise (· ≤ ·) :=
      sortStrings_sorted _
    have hnd : (sortStrings (((values.map Prod.fst).filter
        (fun k => !(KEYS_COMMON.contains k))).dedup)).Pairwise (· ≠ ·) :=
      (sortStrings_perm _).nodup_iff.mpr (List.nodup_dedup _)
    exact (hle.and hnd).imp (fun h => lt_of_le_of_ne h.1 h.2)
  · intro k
    rw [hdrop]
    rw [(sortStrings_perm _).mem_iff, List.mem_dedup, List.mem_filter]
    simp
  · intro values2 hp
    rw [computeHeader, computeHeader]
    congr 1
    exact sortStrings_eq_of_perm ((hp.filter _).dedup)

/-- Witness for `compute_header_spec`: two field maps with the same keys
in opposite orders produce the same header, and the header carries the
literal common prefix. -/
theorem compute_header_spec_witness :
    computeHeader [("b", "1"), ("a", "2")] = computeHeader [("a", "2"), ("b", "1")] ∧
    (computeHeader [("b", "1"), ("a", "2")]).take 5 =
      ["timestamp", "sensor", "target", "socket", "cpu"] :=
  ⟨(compute_header_spec [("b", "1"), ("a", "2")]).2.2.2
      [("a", "2"), ("b", "1")] (by decide),
   (compute_header_spec [("b", "1"), ("a", "2")]).1⟩

/-- C1: for every set of registered files each sorted ascending by
timestamp, with the codec an opaque decoder that never returns an empty
record fragment, iterating the connected store yields exactly one merged
record per distinct timestamp of the primary (first-registered) file, in
ascending order (`expectedFrom` pairs each yielded record with the
watermark it was produced at, and its record is the deep union, over every
registered file in order, of the decoded rows whose timestamp equals that
watermark). -/
theorem merge_iteration_correct
    (dec : String → Row → Obj) (fs : String → OpenResult)
    (st0 st : CsvDB) (fls : List (String × List Row))
    (hdec : ∀ b r, dec b r ≠ [])
    (_hset : (fls.map Prod.fst).Nodup)
    (_hwf : ∀ pl ∈ fls, wfTimestamps pl.2)
    (hnames : st0.filenames = fls.map Prod.fst)
    (hfs : ∀ pl ∈ fls, fs pl.1 = OpenResult.ok pl.2)
    (hsort : ∀ pl ∈ fls, TsSorted pl.2)
    (hconn : connect fs st0 = .ok st) :
    run dec st = expectedFrom dec fls :=
  run_connect_spec dec fs st0 st fls hdec hnames hfs hsort hconn

/-- Witness for `merge_iteration_correct`: two one-row files at the same
timestamp connect to the primed store and iterate to the predicted
output. -/
theorem merge_iteration_correct_witness :
    connect
      (fun p => if p = "A" then
          OpenResult.ok [[("timestamp", "1"), ("sensor", "s"), ("target", "t"),
            ("socket", "0"), ("cpu", "0")]]
        else if p = "B" then
          OpenResult.ok [[("timestamp", "1"), ("sensor", "s"), ("target", "t"),
            ("socket", "0"), ("cpu", "1")]]
        else OpenResult.notFound)
      ⟨["A", "B"], [], 0, "/t/"⟩ =
      .ok ⟨["A", "B"],
        [⟨"A", some [("timestamp", "1"), ("sensor", "s"), ("target", "t"),
            ("socket", "0"), ("cpu", "0")], []⟩,
         ⟨"B", some [("timestamp", "1"), ("sensor", "s"), ("target", "t"),
            ("socket", "0"), ("cpu", "1")], []⟩], 1, "/t/"⟩ ∧
    run (fun b _ => [(b, Value.s "x")])
      ⟨["A", "B"],
        [⟨"A", some [("timestamp", "1"), ("sensor", "s"), ("target", "t"),
            ("socket", "0"), ("cpu", "0")], []⟩,
         ⟨"B", some [("timestamp", "1"), ("sensor", "s"), ("target", "t"),
            ("socket", "0"), ("cpu", "1")], []⟩], 1, "/t/"⟩ =
      expectedFrom (fun b _ => [(b, Value.s "x")])
        [("A", [[("timestamp", "1"), ("sensor", "s"), ("target", "t"),
            ("socket", "0"), ("cpu", "0")]]),
         ("B", [[("timestamp", "1"), ("sensor", "s"), ("target", "t"),
            ("socket", "0"), ("cpu", "1")]])] :=
  ⟨rfl,
   merge_iteration_correct (fun b _ => [(b, Value.s "x")])
     (fun p => if p = "A" then
         OpenResult.ok [[("timestamp", "1"), ("sensor", "s"), ("target", "t"),
           ("socket", "0"), ("cpu", "0")]]
       else if p = "B" then
         OpenResult.ok [[("timestamp", "1"), ("sensor", "s"), ("target", "t"),
           ("socket", "0"), ("cpu", "1")]]
       else OpenResult.notFound)
     ⟨["A", "B"], [], 0, "/t/"⟩ _
     [("A", [[("timestamp", "1"), ("sensor", "s"), ("target", "t"),
         ("socket", "0"), ("cpu", "0")]]),
      ("B", [[("timestamp", "1"), ("sensor", "s"), ("target", "t"),
         ("socket", "0"), ("cpu", "1")]])]
     (fun _ _ => List.cons_ne_nil _ _) (by decide) (by decide) rfl (by decide)
     (by decide) rfl⟩

/-- C9: across a full iteration of a connected store over sorted files,
the watermarks at which the records are yielded are pairwise
non-decreasing: no later record carries an earlier timestamp than any
record yielded before it. -/
theorem iteration_timestamps_monotone
    (dec : String → Row → Obj) (fs : String → OpenResult)
    (st0 st : CsvDB) (fls : List (String × List Row))
    (hdec : ∀ b r, dec b r ≠ [])
    (_hset : (fls.map Prod.fst).Nodup)
    (_hwf : ∀ pl ∈ fls, wfTimestamps pl.2)
    (hnames : st0.filenames = fls.map Prod.fst)
    (hfs : ∀ pl ∈ fls, fs pl.1 = OpenResult.ok pl.2)
    (hsort : ∀ pl ∈ fls, TsSorted pl.2)
    (hconn : connect fs st0 = .ok st) :
    List.Pairwise (· ≤ ·) ((run dec st).map Prod.fst) := by
  rw [run_connect_spec dec fs st0 st fls hdec hnames hfs hsort hconn]
  cases fls with
  | nil => simp [expectedFrom]
  | cons pl tl =>
    obtain ⟨p0, l0⟩ := pl
    rw [show expectedFrom dec ((p0, l0) :: tl) =
      ((l0.map rowTs).dedup).map
        (fun T => (T, mergeFls dec T ((p0, l0) :: tl) [])) from rfl]
    rw [List.map_map]
    rw [show (Prod.fst ∘ fun T => (T, mergeFls dec T ((p0, l0) :: tl) ([] : Obj))) =
      id from rfl]
    rw [List.map_id]
    have hs0 : (l0.map rowTs).Pairwise (· ≤ ·) := by
      rw [List.pairwise_map]
      exact hsort (p0, l0) (List.mem_cons_self _ _)
    exact List.Pairwise.sublist (List.dedup_sublist _) hs0

/-- Witness for `iteration_timestamps_monotone` on a two-row primary
file. -/
theorem iteration_timestamps_monotone_witness :
    connect
      (fun p => if p = "A" then
          OpenResult.ok [[("timestamp", "1"), ("sensor", "s"), ("target", "t"),
            ("socket", "0"), ("cpu", "0")],
           [("timestamp", "2"), ("sensor", "s"), ("target", "t"),
            ("socket", "0"), ("cpu", "0")]]
        else OpenResult.notFound)
      ⟨["A"], [], 0, "/t/"⟩ =
      .ok ⟨["A"],
        [⟨"A", some [("timestamp", "1"), ("sensor", "s"), ("target", "t"),
            ("socket", "0"), ("cpu", "0")],
          [[("timestamp", "2"), ("sensor", "s"), ("target", "t"),
            ("socket", "0"), ("cpu", "0")]]⟩], 1, "/t/"⟩ ∧
    List.Pairwise (· ≤ ·)
      ((run (fun b _ => [(b, Value.s "x")])
        ⟨["A"],
          [⟨"A", some [("timestamp", "1"), ("sensor", "s"), ("target", "t"),
              ("socket", "0"), ("cpu", "0")],
            [[("timestamp", "2"), ("sensor", "s"), ("target", "t"),
              ("socket", "0"), ("cpu", "0")]]⟩], 1, "/t/"⟩).map Prod.fst) :=
  ⟨rfl,
   iteration_timestamps_monotone (fun b _ => [(b, Value.s "x")])
     (fun p => if p = "A" then
         OpenResult.ok [[("timestamp", "1"), ("sensor", "s"), ("target", "t"),
           ("socket", "0"), ("cpu", "0")],
          [("timestamp", "2"), ("sensor", "s"), ("target", "t"),
           ("socket", "0"), ("cpu", "0")]]
       else OpenResult.notFound)
     ⟨["A"], [], 0, "/t/"⟩ _
     [("A", [[("timestamp", "1"), ("sensor", "s"), ("target", "t"),
         ("socket", "0"), ("cpu", "0")],
       [("timestamp", "2"), ("sensor", "s"), ("target", "t"),
         ("socket", "0"), ("cpu", "0")]])]
     (fun _ _ => List.cons_ne_nil _ _) (by decide) (by decide) rfl (by decide)
     (by decide) rfl⟩

end CsvDb
